import Mathlib

/-!
Verification development for `percent-cache-mover.py`, a snapshot-aware
tiered-storage eviction mover.  The Python source is shallowly embedded:

* an `os.stat` result is a `Stats` record keeping the tuple fields the
  program reads: `st_dev` (index 2), `st_size` (index 6), `st_atime`
  (index 7);
* a Python `dict` keyed by path strings is an association list
  `List (String × _)`; `dict.pop` is `popKey`, `dict[k] = v` is `setKey`;
* `str.replace` is `pyReplace` (it substitutes every occurrence,
  left to right, exactly as CPython does);
* the directory tree walked by `os.walk` is the inductive tree `FS`;
  `update_metadata`'s two walks are `walkLive` (device-boundary pruning)
  and `walkSnap`;
* floats used for sizes, timestamps and ratios are modelled exactly over
  `ℚ`/`ℤ`; file sizes are `ℕ`;
* the external `rsync` call and the `os.path.exists` checks are an
  oracle `MoveEnv`; `rsync_move`, `get_filelists`, `update_metadata` and
  the two move loops of `main` are translated function by function.
-/

/-- The fields of an `os.stat` result that the program reads: `st_dev`
(tuple index 2), `st_size` (tuple index 6), `st_atime` (tuple index 7,
whole seconds). -/
structure Stats where
  dev : ℕ
  size : ℕ
  atime : ℤ
deriving DecidableEq, Repr

/-- `k in d` for an association-list model of a Python dict. -/
def containsKey {α : Type} (l : List (String × α)) (k : String) : Bool :=
  l.any (fun e => e.1 == k)

/-- `d.pop(k, None)`'s effect on the mapping: the entry keyed `k` is
removed (a dict holds each key at most once; on a no-duplicate
association list this filter removes exactly that entry). -/
def popKey {α : Type} (l : List (String × α)) (k : String) : List (String × α) :=
  l.filter (fun e => e.1 != k)

/-- `d[k] = v`: replace the entry in place if the key is present,
append it otherwise. -/
def setKey {α : Type} (l : List (String × α)) (k : String) (v : α) : List (String × α) :=
  if containsKey l k then l.map (fun e => if e.1 == k then (k, v) else e)
  else l ++ [(k, v)]

/-- Code-point comparison of strings as lists of characters, the order
Python uses to compare `str` values (needed for `max(metadata)`). -/
def listLtB : List Char → List Char → Bool
  | [], [] => false
  | [], _ :: _ => true
  | _ :: _, [] => false
  | a :: as, b :: bs =>
    if a.val < b.val then true else if b.val < a.val then false else listLtB as bs

/-- Binary maximum of two strings under Python's string order. -/
def strMax (a b : String) : String := if listLtB a.data b.data then b else a

/-- `max(metadata)`: the greatest key of the store under string order.
Python's `max` starts from the first element of a nonempty iterable; the
store always holds the key `"0"`, and every key is `≥ ""`, so folding
from `""` computes the same maximum. -/
def maxKey {α : Type} (l : List (String × α)) : String :=
  (l.map Prod.fst).foldl strMax ""

/-- CPython `s.replace(old, new)` on the character list of `s`: scan left
to right; whenever `old` is a prefix of the remaining input, emit `new`
and skip past the match; an empty `old` matches at every position
(including the end). -/
def pyReplaceL (pat rep : List Char) : List Char → List Char
  | [] => if pat.isEmpty then rep else []
  | c :: rest =>
    if pat.isEmpty then rep ++ c :: pyReplaceL pat rep rest
    else if pat.isPrefixOf (c :: rest) then
      rep ++ pyReplaceL pat rep (List.drop (pat.length - 1) rest)
    else c :: pyReplaceL pat rep rest
termination_by s => s.length
decreasing_by all_goals (simp [List.length_drop] <;> omega)

/-- `s.replace(old, new)` on `String`. -/
def pyReplace (s old new : String) : String :=
  String.mk (pyReplaceL old.data new.data s.data)

/-- Whether `pat` occurs as a contiguous segment of `s` (an empty `pat`
occurs everywhere). -/
def occursB (pat : List Char) : List Char → Bool
  | [] => pat.isEmpty
  | c :: rest => pat.isPrefixOf (c :: rest) || occursB pat rest

/-- `s.rstrip("/")`: drop trailing slashes. -/
def rstripSlash (s : String) : String :=
  String.mk ((s.data.reverse.dropWhile (fun c => c == '/')).reverse)

/-- A directory tree as seen by `os.walk`: the directory's own path and
stat, the regular files directly inside it (path and stat), and its
subdirectories. -/
inductive FS : Type where
  | node (path : String) (stat : Stats) (files : List (String × Stats)) (subs : List FS)

/-- The path of the root directory of a tree. -/
def FS.path : FS → String
  | .node p _ _ _ => p

/-- The stat of the root directory of a tree. -/
def FS.stat : FS → Stats
  | .node _ st _ _ => st

mutual

/-- All file paths in a tree (the tree's own files and, recursively,
those of every subdirectory). -/
def FS.filePaths : FS → List String
  | .node _ _ fls subs => fls.map Prod.fst ++ filePathsList subs

/-- All file paths of a forest. -/
def filePathsList : List FS → List String
  | [] => []
  | t :: ts => FS.filePaths t ++ filePathsList ts

end

mutual

/-- All subtrees of a tree (the tree itself included). -/
def FS.subtrees : FS → List FS
  | .node p st fls subs => .node p st fls subs :: subtreesList subs

/-- All subtrees of the members of a forest. -/
def subtreesList : List FS → List FS
  | [] => []
  | t :: ts => FS.subtrees t ++ subtreesList ts

end

mutual

/-- The live-filesystem walk of `update_metadata` (source lines 89-100):
`os.walk` visits each directory top-down; the directory's stat is
recorded in `dirs` first; if its `st_dev` differs from `base_dev` the
walk clears the pending subdirectory list (`dirs[:] = []`) and moves on,
recording no files there and never descending; otherwise every directly
contained file that still exists is recorded in `files` and the walk
descends.  Returns `(dirs, files)`. -/
def walkLive (ex : String → Bool) (baseDev : ℕ) :
    FS → List (String × Stats) × List (String × Stats)
  | .node p st fls subs =>
    if st.dev != baseDev then ([(p, st)], [])
    else
      let sub := walkLiveList ex baseDev subs
      ((p, st) :: sub.1, fls.filter (fun e => ex e.1) ++ sub.2)

/-- `walkLive` over a list of subdirectories, concatenating results. -/
def walkLiveList (ex : String → Bool) (baseDev : ℕ) :
    List FS → List (String × Stats) × List (String × Stats)
  | [] => ([], [])
  | t :: ts =>
    let w := walkLive ex baseDev t
    let ws := walkLiveList ex baseDev ts
    (w.1 ++ ws.1, w.2 ++ ws.2)

end

mutual

/-- The snapshot walk of `update_metadata` (source lines 64-72): like the
live walk but with no device check and no pruning; dirs are recorded,
and files that still exist are recorded.  Returns `(dirs, files)`. -/
def walkSnap (ex : String → Bool) :
    FS → List (String × Stats) × List (String × Stats)
  | .node p st fls subs =>
    let sub := walkSnapList ex subs
    ((p, st) :: sub.1, fls.filter (fun e => ex e.1) ++ sub.2)

/-- `walkSnap` over a list of subdirectories. -/
def walkSnapList (ex : String → Bool) :
    List FS → List (String × Stats) × List (String × Stats)
  | [] => ([], [])
  | t :: ts =>
    let w := walkSnap ex t
    let ws := walkSnapList ex ts
    (w.1 ++ ws.1, w.2 ++ ws.2)

end

/-- One snapshot inventory: the `{"files": .., "dirs": .., "root": ..}`
dictionaries the program keeps per snapshot identifier. -/
structure SnapInv where
  root : String
  files : List (String × Stats)
  dirs : List (String × Stats)
deriving DecidableEq

/-- The metadata store: identifier (string, `"0"` = live) → inventory. -/
abbrev Store := List (String × SnapInv)

/-- The filesystem facts `update_metadata` consults: whether
`cache_pool/.snapshots` exists and is a directory, its listing, the tree
under each snapshot's root, the tree under the cache pool itself, and
the `os.path.exists` oracle used while scanning. -/
structure UpdateEnv where
  cachePool : String
  snapMainOk : Bool
  currentSnapshots : List String
  snapTree : String → FS
  liveTree : FS
  ex : String → Bool

/-- `os.path.join(cache_pool, ".snapshots", n, "snapshot")`. -/
def snapRootPath (env : UpdateEnv) (n : String) : String :=
  env.cachePool ++ "/.snapshots/" ++ n ++ "/snapshot"

/-- Scanning one snapshot tree into its inventory (source lines 59-72). -/
def scanSnapshot (env : UpdateEnv) (n : String) : SnapInv :=
  let w := walkSnap env.ex (env.snapTree n)
  { root := snapRootPath env n, files := w.2, dirs := w.1 }

/-- Scanning the live filesystem into the `"0"` inventory (source lines
86-100); `base_dev` is the device of the cache pool root itself. -/
def scanLive (env : UpdateEnv) : SnapInv :=
  let w := walkLive env.ex env.liveTree.stat.dev env.liveTree
  { root := env.cachePool, files := w.2, dirs := w.1 }

/-- `update_metadata(cache_pool, metadata)` (source lines 41-102).  When
the snapshot directory exists: scan every listed snapshot not already in
the store, then drop every non-`"0"` entry whose identifier is no longer
listed.  When it does not exist, the store's snapshot entries are left
untouched.  Finally the `"0"` entry is unconditionally rebuilt from a
fresh live walk. -/
def update_metadata (env : UpdateEnv) (metadata : Store) : Store :=
  let md1 :=
    if env.snapMainOk then
      let withNew := env.currentSnapshots.foldl
        (fun md n => if containsKey md n then md else md ++ [(n, scanSnapshot env n)])
        metadata
      withNew.filter (fun kv => kv.1 == "0" || env.currentSnapshots.contains kv.1)
    else metadata
  setKey md1 "0" (scanLive env)

/-- `metadata[k]` on the store (total: defaults to an empty inventory;
the program only reads keys it knows are present). -/
def getInv (metadata : Store) (k : String) : SnapInv :=
  (List.lookup k metadata).getD ⟨"", [], []⟩

/-- The sort key of `get_filelists`: `lambda t: t[1][7]`, i.e. compare
candidates by access time. -/
def atimeLe (a b : String × Stats) : Prop := a.2.atime ≤ b.2.atime

instance : DecidableRel atimeLe :=
  fun a b => inferInstanceAs (Decidable (a.2.atime ≤ b.2.atime))

instance : IsTotal (String × Stats) atimeLe := ⟨fun a b => le_total a.2.atime b.2.atime⟩

instance : IsTrans (String × Stats) atimeLe := ⟨fun _ _ _ h1 h2 => le_trans h1 h2⟩

/-- The classification loop of `get_filelists` (source lines 112-129),
one pass over the live `files` dict in iteration order: each live file's
snapshot counterpart is `fp.replace(liveRoot, snapRoot)`; if that path
is a key of the latest snapshot's `files` the candidate goes to the
in-snapshot list, and additionally to the stale list when
`stale_days > 0` and its access time (as a naive datetime) is older than
`now - timedelta(days=stale_days)`, i.e. `atime < now - stale_days*86400`
in seconds; otherwise it goes to the not-in-snapshot list. -/
def splitFiles (liveRoot snapRoot : String) (snapFiles : List (String × Stats))
    (stale_days now : ℚ) :
    List (String × Stats) →
      List (String × Stats) × List (String × Stats) × List (String × Stats)
  | [] => ([], [], [])
  | (fp, st) :: rest =>
    let r := splitFiles liveRoot snapRoot snapFiles stale_days now rest
    let fpSnap := pyReplace fp liveRoot snapRoot
    if containsKey snapFiles fpSnap then
      (r.1, (fp, st) :: r.2.1,
        if stale_days > 0 ∧ (st.atime : ℚ) < now - stale_days * 86400
        then (fp, st) :: r.2.2 else r.2.2)
    else ((fp, st) :: r.1, r.2.1, r.2.2)

/-- `get_filelists(metadata, stale_days)` (source lines 105-136): find
the greatest key (`max(metadata)`), classify every live file, then sort
the not-in-snapshot and in-snapshot lists ascending by access time.  The
stale list is returned in classification order — the source sorts only
the first two lists.  `now` stands for `datetime.datetime.now()` in
seconds. -/
def get_filelists (metadata : Store) (stale_days : ℚ) (now : ℚ) :
    List (String × Stats) × List (String × Stats) × List (String × Stats) :=
  let latestSnapNum := maxKey metadata
  let live := getInv metadata "0"
  let snap := getInv metadata latestSnapNum
  let r := splitFiles live.root snap.root snap.files stale_days now live.files
  (List.insertionSort atimeLe r.1, List.insertionSort atimeLe r.2.1, r.2.2)

/-- The external world of the move loop: `os.path.exists` at transfer
time and the exit status of the `rsync` subprocess, keyed by the source
argument passed to it. -/
structure MoveEnv where
  ex : String → Bool
  rsyncOk : String → Bool

/-- The source argument built for rsync (source line 147):
`cache + "/." + live_fp.replace(cache, "")` with `cache` already
rstripped of trailing slashes. -/
def rsyncSrc (cache live_fp : String) : String :=
  rstripSlash cache ++ "/." ++ pyReplace live_fp (rstripSlash cache) ""

/-- `rsync_move(cache, backing, live_fp, audit_mode)` (source lines
139-171).  Returns the boolean result plus the invocation actually
performed: `none` when no subprocess ran (path missing, or audit mode),
`some (src, dst)` when rsync was invoked.  A missing path is an implicit
success; in audit mode the call is skipped and treated as success;
otherwise the result is the subprocess's success. -/
def rsync_move (env : MoveEnv) (cache backing live_fp : String)
    (audit_mode : Bool) : Bool × Option (String × String) :=
  if !(env.ex live_fp) then (true, none)
  else if audit_mode then (true, none)
  else (env.rsyncOk (rsyncSrc cache live_fp),
        some (rsyncSrc cache live_fp, rstripSlash backing))

/-- State and trace of the primary move loop: the running `live_size`,
the remaining `"0"` files dict, `move_count`, the candidates for which
`rsync_move` was called, and the source paths for which an external
rsync process was actually invoked. -/
structure PassResult where
  liveSize : ℤ
  files : List (String × Stats)
  moveCount : ℕ
  attempts : List String
  transfers : List String
deriving DecidableEq

/-- The primary move loop of `main` (source lines 241-257), over
`live_not_in_snap + live_in_snap`.  Before each candidate the ratio
`live_size / total_size` is recomputed; if it is `< threshold` the loop
breaks at once.  Otherwise `rsync_move` runs; on success `live_size`
drops by the candidate's `st_size`, `move_count` increments, and the
entry is popped from the `"0"` files dict; on failure nothing changes
and the loop continues with the next candidate. -/
def primaryPass (env : MoveEnv) (cache backing : String) (audit : Bool)
    (total_size : ℕ) (threshold : ℚ) :
    List (String × Stats) → ℤ → List (String × Stats) → ℕ → PassResult
  | [], live_size, files, move_count => ⟨live_size, files, move_count, [], []⟩
  | (fp, stats) :: rest, live_size, files, move_count =>
    if (live_size : ℚ) / (total_size : ℚ) < threshold then
      ⟨live_size, files, move_count, [], []⟩
    else
      let m := rsync_move env cache backing fp audit
      let r :=
        if m.1 then
          primaryPass env cache backing audit total_size threshold rest
            (live_size - (stats.size : ℤ)) (popKey files fp) (move_count + 1)
        else
          primaryPass env cache backing audit total_size threshold rest
            live_size files move_count
      ⟨r.liveSize, r.files, r.moveCount, fp :: r.attempts,
        (m.2.map Prod.fst).toList ++ r.transfers⟩

/-- State and trace of the stale move loop: remaining `"0"` files dict,
`stale_moved_size`, `stale_moved_count`, and the two traces as in
`PassResult`. -/
structure StaleResult where
  files : List (String × Stats)
  movedSize : ℕ
  movedCount : ℕ
  attempts : List String
  transfers : List String
deriving DecidableEq

/-- The stale move loop of `main` (source lines 268-272), over
`stale_in_snap`: every candidate goes straight to `rsync_move` — there
is no ratio test; on success the entry is popped from the `"0"` files
dict, and only when it was still present do `stale_moved_size` and
`stale_moved_count` increase. -/
def stalePass (env : MoveEnv) (cache backing : String) (audit : Bool) :
    List (String × Stats) → List (String × Stats) → ℕ → ℕ → StaleResult
  | [], files, size, cnt => ⟨files, size, cnt, [], []⟩
  | (fp, stats) :: rest, files, size, cnt =>
    let m := rsync_move env cache backing fp audit
    let r :=
      if m.1 then
        if (List.lookup fp files).isSome then
          stalePass env cache backing audit rest (popKey files fp)
            (size + stats.size) (cnt + 1)
        else stalePass env cache backing audit rest files size cnt
      else stalePass env cache backing audit rest files size cnt
    ⟨r.files, r.movedSize, r.movedCount, fp :: r.attempts,
      (m.2.map Prod.fst).toList ++ r.transfers⟩

/-- `live_size` as computed at source line 216: the sum of `st_size`
over the `"0"` files dict. -/
def live_size_of (metadata : Store) : ℕ :=
  ((getInv metadata "0").files.map (fun e => e.2.size)).sum

/-- The sequence of metadata-save targets performed by one run of `main`
(source lines 194-284), in order.  `main` exits before any save when
`used_size/total_size < threshold`; otherwise, with a metadata path
configured, it saves the refreshed store to that path (line 214) —
unconditionally, audit mode or not; it exits next when
`live_size/total_size < threshold`; otherwise after the move loops the
final save (lines 279-284) goes to the normal path, or to
`metadata_path + "_audit.json"` in audit mode. -/
def mainSaveTargets (env : UpdateEnv) (metadata_path : Option String)
    (audit_mode : Bool) (threshold : ℚ) (total_size used_size : ℕ)
    (loaded : Store) : List String :=
  if (used_size : ℚ) / (total_size : ℚ) < threshold then []
  else
    let metadata0 := match metadata_path with
      | some _ => loaded
      | none => []
    let metadata := update_metadata env metadata0
    let saves1 := match metadata_path with
      | some p => [p]
      | none => []
    if (live_size_of metadata : ℚ) / (total_size : ℚ) < threshold then saves1
    else
      saves1 ++ (match metadata_path with
        | none => []
        | some p => [if audit_mode then p ++ "_audit.json" else p])

/-! ### Concrete instances used by witnesses and counterexamples -/

/-- A transfer environment in which no live path exists at transfer time
and every rsync invocation would succeed. -/
def envGone : MoveEnv := ⟨fun _ => false, fun _ => true⟩

/-- A transfer environment in which every live path exists and every
rsync invocation fails. -/
def envFail : MoveEnv := ⟨fun _ => true, fun _ => false⟩

/-- A refresh environment whose cache pool is an empty directory on
device 0 and whose snapshot-holding directory does not exist. -/
def envNoSnapDir : UpdateEnv :=
  ⟨"c", false, [], fun _ => FS.node "" ⟨0, 0, 0⟩ [] [],
    FS.node "c" ⟨0, 0, 0⟩ [] [], fun _ => true⟩

/-- A store whose live inventory lists two in-snapshot files with
decreasing access times (10 then 5), both stale for `stale_days = 1`,
`now = 100000`; the latest snapshot is `"1"` with root `"s"`. -/
def storeTwoStale : Store :=
  [("0", ⟨"c", [("ca", ⟨0, 0, 10⟩), ("cb", ⟨0, 0, 5⟩)], []⟩),
   ("1", ⟨"s", [("sa", ⟨0, 0, 0⟩), ("sb", ⟨0, 0, 0⟩)], []⟩)]

/-- A store whose one live path `"cac"` contains the live root `"c"`
twice; the latest snapshot `"1"` (root `"s"`) holds `"sac"`, the
counterpart obtained by substituting only the leading root. -/
def storeDoubleRoot : Store :=
  [("0", ⟨"c", [("cac", ⟨0, 0, 0⟩)], []⟩),
   ("1", ⟨"s", [("sac", ⟨0, 0, 0⟩)], []⟩)]

/-- A snapshot entry left over in a loaded store. -/
def inv5 : SnapInv := ⟨"r5", [], []⟩

/-- A live tree rooted on device 0 holding file `"c/f"`, with a
mount-point subdirectory `"c/m"` on device 1 holding file `"c/m/g"`. -/
def treeWithMount : FS :=
  FS.node "c" ⟨0, 0, 0⟩ [("c/f", ⟨0, 1, 0⟩)]
    [FS.node "c/m" ⟨1, 0, 0⟩ [("c/m/g", ⟨1, 1, 0⟩)] []]

/-- A refresh environment scanning `treeWithMount`, no snapshots. -/
def envWithMount : UpdateEnv :=
  ⟨"c", false, [], fun _ => FS.node "" ⟨0, 0, 0⟩ [] [], treeWithMount, fun _ => true⟩

/-- A refresh environment whose snapshot-holding directory exists and
lists exactly the snapshot `"1"`. -/
def envSnapOne : UpdateEnv :=
  ⟨"c", true, ["1"], fun _ => FS.node "" ⟨0, 0, 0⟩ [] [],
    FS.node "c" ⟨0, 0, 0⟩ [] [], fun _ => true⟩

/-- Strong induction over the directory tree: to prove a property of
every tree it suffices to prove it for a node assuming it for every
subdirectory. -/
def FS.inductionOn {motive : FS → Prop}
    (h : ∀ p st fls subs, (∀ t ∈ subs, motive t) → motive (FS.node p st fls subs)) :
    ∀ t, motive t
  | .node p st fls subs => h p st fls subs (fun t ht => FS.inductionOn h t)
termination_by t => sizeOf t
decreasing_by
  have := List.sizeOf_lt_of_mem ht
  simp at *
  omega

/-! ### Theorems -/

/-- C1: in the primary pass over `notInSnapshot ++ inSnapshot`, whenever
the ratio `live_size / total_size` recomputed immediately before a
candidate is strictly below the threshold, the loop stops at once: no
transfer is invoked for that candidate nor for any later one (empty
attempt and transfer traces) and the state is unchanged; and on an
exhausted candidate list the pass likewise terminates with no action. -/
theorem primary_threshold_stop (env : MoveEnv) (cache backing : String)
    (audit : Bool) (total_size : ℕ) (threshold : ℚ) (fp : String) (stats : Stats)
    (rest : List (String × Stats)) (live_size : ℤ) (files : List (String × Stats))
    (move_count : ℕ)
    (h : (live_size : ℚ) / (total_size : ℚ) < threshold) :
    primaryPass env cache backing audit total_size threshold ((fp, stats) :: rest)
        live_size files move_count = ⟨live_size, files, move_count, [], []⟩ ∧
    primaryPass env cache backing audit total_size threshold []
        live_size files move_count = ⟨live_size, files, move_count, [], []⟩ := by
  refine ⟨?_, rfl⟩
  simp [primaryPass, h]

/-- Witness for C1: with `live_size = 0`, `total_size = 1`,
`threshold = 1` the ratio test holds and the pass with one pending
candidate stops with empty traces. -/
theorem primary_threshold_stop_witness :
    primaryPass envGone "c" "b" false 1 1 [("f", ⟨0, 0, 0⟩)] 0 [] 0
      = ⟨0, [], 0, [], []⟩ ∧
    primaryPass envGone "c" "b" false 1 1 [] 0 [] 0
      = ⟨0, [], 0, [], []⟩ :=
  primary_threshold_stop envGone "c" "b" false 1 1 "f" ⟨0, 0, 0⟩ [] 0 [] 0
    (by simp)

/-- C8: the stale pass is unconditional — whatever the inventory, the
accumulated sizes, or any threshold state left by the primary pass,
`rsync_move` is attempted for every single candidate of the stale list,
in order; there is no ratio gate in `stalePass` at all. -/
theorem stale_pass_attempts_all (env : MoveEnv) (cache backing : String)
    (audit : Bool) :
    ∀ (cs files : List (String × Stats)) (size cnt : ℕ),
      (stalePass env cache backing audit cs files size cnt).attempts
        = cs.map Prod.fst := by
  intro cs
  induction cs with
  | nil => intro files size cnt; rfl
  | cons c rest ih =>
    intro files size cnt
    obtain ⟨fp, stats⟩ := c
    simp only [stalePass, List.map_cons]
    split
    · split
      · simpa using ih _ _ _
      · simpa using ih _ _ _
    · simpa using ih _ _ _

/-- C9: per-candidate effect in the primary pass, when the ratio test
does not stop the loop.  A candidate whose path no longer exists is an
implicit success with no transfer invoked: the entry is popped from the
`"0"` inventory, `live_size` drops by its size, the counter increments,
and the loop continues.  A candidate whose transfer fails (rsync exit
status nonzero, no audit) leaves inventory, `live_size` and counter
unchanged for that candidate, records the attempted invocation, and the
loop continues with the rest. -/
theorem primary_step_effects (env : MoveEnv) (cache backing : String)
    (total_size : ℕ) (threshold : ℚ) (fp : String) (stats : Stats)
    (rest : List (String × Stats)) (live_size : ℤ) (files : List (String × Stats))
    (move_count : ℕ)
    (hthr : ¬ ((live_size : ℚ) / (total_size : ℚ) < threshold)) :
    (env.ex fp = false → ∀ audit : Bool,
      primaryPass env cache backing audit total_size threshold
          ((fp, stats) :: rest) live_size files move_count
        = (let r := primaryPass env cache backing audit total_size threshold rest
              (live_size - (stats.size : ℤ)) (popKey files fp) (move_count + 1)
           ⟨r.liveSize, r.files, r.moveCount, fp :: r.attempts, r.transfers⟩)) ∧
    (env.ex fp = true → env.rsyncOk (rsyncSrc cache fp) = false →
      primaryPass env cache backing false total_size threshold
          ((fp, stats) :: rest) live_size files move_count
        = (let r := primaryPass env cache backing false total_size threshold rest
              live_size files move_count
           ⟨r.liveSize, r.files, r.moveCount, fp :: r.attempts,
             rsyncSrc cache fp :: r.transfers⟩)) := by
  constructor
  · intro hex audit
    simp [primaryPass, hthr, rsync_move, hex]
  · intro hex hok
    simp [primaryPass, hthr, rsync_move, hex, hok]

/-- Witness for C9: with `live_size = 1`, `total_size = 1`,
`threshold = 0` the ratio test does not fire; under `envGone` the
missing-path branch applies, under `envFail` the failed-transfer branch
applies. -/
theorem primary_step_effects_witness :
    (primaryPass envGone "c" "b" false 1 0 [("f", ⟨0, 2, 0⟩)] 1 [("f", ⟨0, 2, 0⟩)] 0
      = (let r := primaryPass envGone "c" "b" false 1 0 []
            (1 - ((2 : ℕ) : ℤ)) (popKey [("f", ⟨0, 2, 0⟩)] "f") 1
         ⟨r.liveSize, r.files, r.moveCount, "f" :: r.attempts, r.transfers⟩)) ∧
    (primaryPass envFail "c" "b" false 1 0 [("f", ⟨0, 2, 0⟩)] 1 [("f", ⟨0, 2, 0⟩)] 0
      = (let r := primaryPass envFail "c" "b" false 1 0 []
            1 [("f", ⟨0, 2, 0⟩)] 0
         ⟨r.liveSize, r.files, r.moveCount, "f" :: r.attempts,
           rsyncSrc "c" "f" :: r.transfers⟩)) :=
  ⟨(primary_step_effects envGone "c" "b" 1 0 "f" ⟨0, 2, 0⟩ [] 1
      [("f", ⟨0, 2, 0⟩)] 0 (by simp)).1 rfl false,
   (primary_step_effects envFail "c" "b" 1 0 "f" ⟨0, 2, 0⟩ [] 1
      [("f", ⟨0, 2, 0⟩)] 0 (by simp)).2 rfl rfl⟩

/-- C10: in the stale pass, the moved-bytes and moved-count totals grow
only when the candidate's path is still a key of the `"0"` inventory at
its turn.  For a candidate already absent (for instance because the
primary pass, or an earlier stale candidate, already popped it), the
step leaves inventory, `stale_moved_size` and `stale_moved_count`
exactly as the remainder of the pass computes them — the candidate
contributes nothing, so no file's size is counted twice across the two
passes. -/
theorem stale_no_double_count (env : MoveEnv) (cache backing : String)
    (audit : Bool) (fp : String) (stats : Stats)
    (rest files : List (String × Stats)) (size cnt : ℕ)
    (h : List.lookup fp files = none) :
    stalePass env cache backing audit ((fp, stats) :: rest) files size cnt
      = (let r := stalePass env cache backing audit rest files size cnt
         ⟨r.files, r.movedSize, r.movedCount, fp :: r.attempts,
           ((rsync_move env cache backing fp audit).2.map Prod.fst).toList
             ++ r.transfers⟩) := by
  simp [stalePass, h]

/-- Witness for C10: an empty inventory gives `lookup = none`; the stale
step over one candidate adds nothing to the totals. -/
theorem stale_no_double_count_witness :
    stalePass envFail "c" "b" false [("f", ⟨0, 2, 0⟩)] [] 0 0
      = (let r := stalePass envFail "c" "b" false [] [] 0 0
         ⟨r.files, r.movedSize, r.movedCount, "f" :: r.attempts,
           ((rsync_move envFail "c" "b" "f" false).2.map Prod.fst).toList
             ++ r.transfers⟩) :=
  stale_no_double_count envFail "c" "b" false "f" ⟨0, 2, 0⟩ [] [] 0 0 rfl

/-- A list is a prefix of itself followed by anything. -/
theorem isPrefixOf_append_self : ∀ l s : List Char, l.isPrefixOf (l ++ s) = true := by
  intro l
  induction l with
  | nil => intro s; simp [List.isPrefixOf]
  | cons a as ih => intro s; simp [List.isPrefixOf, ih]

/-- `str.replace` consumes a leading occurrence of the (nonempty)
pattern as a whole: the replacement is emitted and scanning resumes
right after the match. -/
theorem pyReplaceL_append_pat (pat rep s : List Char) (h : pat ≠ []) :
    pyReplaceL pat rep (pat ++ s) = rep ++ pyReplaceL pat rep s := by
  obtain ⟨c, pat2, rfl⟩ := List.exists_cons_of_ne_nil h
  rw [List.cons_append, pyReplaceL.eq_2]
  have h2 : (c :: pat2).isPrefixOf (c :: (pat2 ++ s)) = true := by
    rw [← List.cons_append]; exact isPrefixOf_append_self _ _
  simp [h2, List.drop_left]

/-- `str.replace` is the identity on an input in which the pattern never
occurs. -/
theorem pyReplaceL_no_occurrence (pat rep : List Char) :
    ∀ s, occursB pat s = false → pyReplaceL pat rep s = s := by
  intro s
  induction s with
  | nil =>
    intro h
    simp only [occursB] at h
    simp [pyReplaceL.eq_1, h]
  | cons c rest ih =>
    intro h
    simp only [occursB, Bool.or_eq_false_iff] at h
    obtain ⟨h1, h2⟩ := h
    have hne : pat.isEmpty = false := by
      cases pat with
      | nil => simp [List.isPrefixOf] at h1
      | cons a as => rfl
    rw [pyReplaceL.eq_2]
    simp [hne, h1, ih h2]

/-- C7 (amended): the counterpart path is computed with `str.replace`,
which substitutes every occurrence of the live root, not only the
leading one.  Concretely: for a live path `liveRoot ++ suffix`, the
computed counterpart is `snapRoot` followed by `suffix` with every
occurrence of the live root inside `suffix` also replaced; the claimed
equality `counterpart = snapRoot ++ suffix` therefore holds exactly when
the live root does not reoccur in the suffix. -/
theorem corresponding_path_replace (liveRoot snapRoot suffix : String)
    (h : liveRoot ≠ "") :
    pyReplace (liveRoot ++ suffix) liveRoot snapRoot
      = snapRoot ++ pyReplace suffix liveRoot snapRoot ∧
    (occursB liveRoot.data suffix.data = false →
      pyReplace suffix liveRoot snapRoot = suffix) := by
  have hd : liveRoot.data ≠ [] := by
    intro h0
    apply h
    cases liveRoot with
    | mk d => cases h0; rfl
  constructor
  · show String.mk _ = _
    rw [String.data_append, pyReplaceL_append_pat _ _ _ hd]
    rfl
  · intro hocc
    show String.mk _ = _
    rw [pyReplaceL_no_occurrence _ _ _ hocc]

/-- Witness for C7's amended theorem at live root `"c"`, snapshot root
`"s"`, suffix `"ab"` (in which the live root does not reoccur). -/
theorem corresponding_path_replace_witness :
    pyReplace ("c" ++ "ab") "c" "s" = "s" ++ pyReplace "ab" "c" "s" ∧
    pyReplace "ab" "c" "s" = "ab" :=
  ⟨(corresponding_path_replace "c" "s" "ab" (by decide)).1,
   (corresponding_path_replace "c" "s" "ab" (by decide)).2 (by decide)⟩

/-- C7 counterexample: the live path `"cac"` begins with the live root
`"c"` and its remainder is `"ac"`, so the claimed counterpart is
`"s" ++ "ac" = "sac"`; but `str.replace` substitutes the second
occurrence of `"c"` too, producing `"sas"`.  Consequently, with the
latest snapshot holding exactly `"sac"`, classification files the
candidate as not-in-snapshot instead of in-snapshot. -/
theorem corresponding_path_counterexample :
    pyReplace "cac" "c" "s" = "sas" ∧
    pyReplace "cac" "c" "s" ≠ "s" ++ "ac" ∧
    (get_filelists storeDoubleRoot 0 0).1 = [("cac", ⟨0, 0, 0⟩)] ∧
    (get_filelists storeDoubleRoot 0 0).2.1 = [] := by
  have hr : pyReplace "cac" "c" "s" = "sas" := by
    simp [pyReplace, pyReplaceL.eq_1, pyReplaceL.eq_2, List.isPrefixOf]
  have hmax : maxKey storeDoubleRoot = "1" := by decide
  have hlive : getInv storeDoubleRoot "0" = ⟨"c", [("cac", ⟨0, 0, 0⟩)], []⟩ := by decide
  have hsnap : getInv storeDoubleRoot "1" = ⟨"s", [("sac", ⟨0, 0, 0⟩)], []⟩ := by decide
  have hck : containsKey [("sac", (⟨0, 0, 0⟩ : Stats))] "sas" = false := by decide
  refine ⟨hr, ?_, ?_, ?_⟩
  · rw [hr]; decide
  · simp [get_filelists, hmax, hlive, hsnap, splitFiles, hr, hck,
      List.insertionSort, List.orderedInsert]
  · simp [get_filelists, hmax, hlive, hsnap, splitFiles, hr, hck,
      List.insertionSort, List.orderedInsert]

/-- The classification loop equals three filters of the live file list:
by the snapshot-membership test, and (for the stale list) by that test
conjoined with the staleness test. -/
theorem splitFiles_eq (liveRoot snapRoot : String)
    (snapFiles : List (String × Stats)) (stale_days now : ℚ) :
    ∀ lst : List (String × Stats),
      splitFiles liveRoot snapRoot snapFiles stale_days now lst
        = (lst.filter
            (fun e => !(containsKey snapFiles (pyReplace e.1 liveRoot snapRoot))),
           lst.filter
            (fun e => containsKey snapFiles (pyReplace e.1 liveRoot snapRoot)),
           lst.filter
            (fun e => containsKey snapFiles (pyReplace e.1 liveRoot snapRoot)
              && decide (stale_days > 0 ∧ (e.2.atime : ℚ) < now - stale_days * 86400))) := by
  intro lst
  induction lst with
  | nil => rfl
  | cons e rest ih =>
    obtain ⟨fp, st⟩ := e
    cases hc : containsKey snapFiles (pyReplace fp liveRoot snapRoot) with
    | false => simp [splitFiles, ih, hc, List.filter_cons]
    | true =>
      by_cases hs : stale_days > 0 ∧ (st.atime : ℚ) < now - stale_days * 86400
      · simp [splitFiles, ih, hc, hs, List.filter_cons]
      · simp [splitFiles, ih, hc, hs, List.filter_cons]

/-- C2: every file of the live (`"0"`) inventory is classified into
exactly one of the not-in-snapshot and in-snapshot lists; and a file is
in the stale list only if it is also in the in-snapshot list, the stale
threshold is strictly positive, and its access time is older than
`now` minus `stale_days` days. -/
theorem classification_partition (metadata : Store) (stale_days now : ℚ)
    (fp : String) (st : Stats)
    (h : (fp, st) ∈ (getInv metadata "0").files) :
    ((fp, st) ∈ (get_filelists metadata stale_days now).1 ↔
      ¬ (fp, st) ∈ (get_filelists metadata stale_days now).2.1) ∧
    ((fp, st) ∈ (get_filelists metadata stale_days now).2.2 →
      (fp, st) ∈ (get_filelists metadata stale_days now).2.1 ∧
        stale_days > 0 ∧ (st.atime : ℚ) < now - stale_days * 86400) := by
  unfold get_filelists
  simp only [splitFiles_eq, List.mem_insertionSort, List.mem_filter,
    Bool.not_eq_true', Bool.and_eq_true, decide_eq_true_eq]
  constructor
  · cases hc : containsKey (getInv metadata (maxKey metadata)).files
        (pyReplace fp (getInv metadata "0").root
          (getInv metadata (maxKey metadata)).root) with
    | false => simp [h, hc]
    | true => simp [h, hc]
  · rintro ⟨hmem, hck, hs1, hs2⟩
    exact ⟨⟨hmem, hck⟩, hs1, hs2⟩

/-- Witness for C2: the file `("ca", atime 10)` of `storeTwoStale`'s
live inventory satisfies the partition and the stale implication at
`stale_days = 1`, `now = 100000`. -/
theorem classification_partition_witness :
    (("ca", (⟨0, 0, 10⟩ : Stats)) ∈ (get_filelists storeTwoStale 1 100000).1 ↔
      ¬ ("ca", (⟨0, 0, 10⟩ : Stats)) ∈ (get_filelists storeTwoStale 1 100000).2.1) ∧
    (("ca", (⟨0, 0, 10⟩ : Stats)) ∈ (get_filelists storeTwoStale 1 100000).2.2 →
      ("ca", (⟨0, 0, 10⟩ : Stats)) ∈ (get_filelists storeTwoStale 1 100000).2.1 ∧
        (1 : ℚ) > 0 ∧ (((10 : ℤ) : ℚ)) < 100000 - 1 * 86400) :=
  classification_partition storeTwoStale 1 100000 "ca" ⟨0, 0, 10⟩ (by decide)

/-- C3 (amended): the not-in-snapshot and in-snapshot candidate lists
returned by `get_filelists` are sorted ascending by access time; the
stale list is not sorted by the code — it is emitted in live-inventory
iteration order (see the counterexample). -/
theorem classification_sorted (metadata : Store) (stale_days now : ℚ) :
    List.Sorted atimeLe (get_filelists metadata stale_days now).1 ∧
    List.Sorted atimeLe (get_filelists metadata stale_days now).2.1 :=
  ⟨List.sorted_insertionSort atimeLe _, List.sorted_insertionSort atimeLe _⟩

/-- C3 counterexample: in `storeTwoStale` both live files are in the
latest snapshot and stale for `stale_days = 1`, `now = 100000`; the
stale list comes out in inventory order with access times 10 then 5,
which is not ascending — the code sorts only the other two lists. -/
theorem classification_sorted_counterexample :
    ¬ List.Sorted atimeLe (get_filelists storeTwoStale 1 100000).2.2 := by
  have hmax : maxKey storeTwoStale = "1" := by decide
  have hlive : getInv storeTwoStale "0"
      = ⟨"c", [("ca", ⟨0, 0, 10⟩), ("cb", ⟨0, 0, 5⟩)], []⟩ := by decide
  have hsnap : getInv storeTwoStale "1"
      = ⟨"s", [("sa", ⟨0, 0, 0⟩), ("sb", ⟨0, 0, 0⟩)], []⟩ := by decide
  have ha : pyReplace "ca" "c" "s" = "sa" := by
    simp [pyReplace, pyReplaceL.eq_1, pyReplaceL.eq_2, List.isPrefixOf]
  have hb : pyReplace "cb" "c" "s" = "sb" := by
    simp [pyReplace, pyReplaceL.eq_1, pyReplaceL.eq_2, List.isPrefixOf]
  have hca : containsKey [("sa", (⟨0, 0, 0⟩ : Stats)), ("sb", ⟨0, 0, 0⟩)] "sa"
      = true := by decide
  have hcb : containsKey [("sa", (⟨0, 0, 0⟩ : Stats)), ("sb", ⟨0, 0, 0⟩)] "sb"
      = true := by decide
  have h3 : (get_filelists storeTwoStale 1 100000).2.2
      = [("ca", ⟨0, 0, 10⟩), ("cb", ⟨0, 0, 5⟩)] := by
    simp only [get_filelists, hmax, hlive, hsnap, splitFiles, ha, hb, hca, hcb]
    norm_num
  rw [h3]
  simp [List.Sorted, List.pairwise_cons, atimeLe]

/-- `containsKey` holds exactly when some entry has the key. -/
theorem containsKey_iff {α : Type} (l : List (String × α)) (k : String) :
    containsKey l k = true ↔ ∃ e ∈ l, e.1 = k := by
  simp [containsKey]

/-- A key no entry holds looks up to `none`. -/
theorem lookup_none_of_contains_false {α : Type} (l : List (String × α))
    (k : String) (h : containsKey l k = false) : List.lookup k l = none := by
  induction l with
  | nil => rfl
  | cons e rest ih =>
    obtain ⟨e1, e2⟩ := e
    simp only [containsKey, List.any_cons, Bool.or_eq_false_iff] at h
    obtain ⟨h1, h2⟩ := h
    have hk : (k == e1) = false := by
      cases hbe : (k == e1) with
      | false => rfl
      | true => rw [beq_iff_eq] at hbe; rw [hbe] at h1; simp at h1
    rw [List.lookup_cons]
    simp only [hk]
    exact ih h2

/-- `lookup` of `k` right after `d[k] = v`, in-place-update branch. -/
theorem lookup_map_setEntry {α : Type} (l : List (String × α)) (k : String)
    (v : α) (hc : containsKey l k = true) :
    List.lookup k (l.map (fun e => if e.1 == k then (k, v) else e)) = some v := by
  induction l with
  | nil => simp [containsKey] at hc
  | cons e rest ih =>
    obtain ⟨e1, e2⟩ := e
    cases he : (e1 == k) with
    | true =>
      rw [List.map_cons]
      have hhead : (if ((e1, e2) : String × α).1 == k then (k, v) else (e1, e2))
          = (k, v) := by simp [he]
      rw [hhead, List.lookup_cons]
      simp
    | false =>
      have hc2 : containsKey rest k = true := by
        simp only [containsKey, List.any_cons, he, Bool.false_or] at hc
        exact hc
      have hk : (k == e1) = false := by
        cases hbe : (k == e1) with
        | false => rfl
        | true => rw [beq_iff_eq] at hbe; rw [hbe, beq_self_eq_true] at he; exact he
      rw [List.map_cons]
      have hhead : (if ((e1, e2) : String × α).1 == k then (k, v) else (e1, e2))
          = (e1, e2) := by simp [he]
      rw [hhead, List.lookup_cons]
      simp only [hk]
      exact ih hc2

/-- `lookup` of `k` right after `d[k] = v` gives `v`. -/
theorem lookup_setKey_self {α : Type} (l : List (String × α)) (k : String) (v : α) :
    List.lookup k (setKey l k v) = some v := by
  unfold setKey
  cases hc : containsKey l k with
  | true =>
    simp only [if_true]
    exact lookup_map_setEntry l k v hc
  | false =>
    rw [if_neg Bool.false_ne_true]
    induction l with
    | nil => rw [List.nil_append, List.lookup_cons]; simp
    | cons e rest ih =>
      obtain ⟨e1, e2⟩ := e
      simp only [containsKey, List.any_cons, Bool.or_eq_false_iff] at hc
      obtain ⟨h1, h2⟩ := hc
      have hk : (k == e1) = false := by
        cases hbe : (k == e1) with
        | false => rfl
        | true => rw [beq_iff_eq] at hbe; rw [hbe] at h1; simp at h1
      rw [List.cons_append, List.lookup_cons]
      simp only [hk]
      exact ih h2

/-- `lookup` at a different key ignores the in-place-update map. -/
theorem lookup_map_ne {α : Type} (l : List (String × α)) (k k2 : String)
    (v : α) (hne : k2 ≠ k) :
    List.lookup k2 (l.map (fun e => if e.1 == k then (k, v) else e))
      = List.lookup k2 l := by
  have hk2k : (k2 == k) = false := by
    cases hbe : (k2 == k) with
    | false => rfl
    | true => rw [beq_iff_eq] at hbe; exact absurd hbe hne
  induction l with
  | nil => rfl
  | cons e rest ih =>
    obtain ⟨e1, e2⟩ := e
    cases he : (e1 == k) with
    | true =>
      have h21 : (k2 == e1) = false := by
        rw [beq_iff_eq] at he
        rw [he]
        exact hk2k
      rw [List.map_cons]
      have hhead : (if ((e1, e2) : String × α).1 == k then (k, v) else (e1, e2))
          = (k, v) := by simp [he]
      rw [hhead, List.lookup_cons, List.lookup_cons]
      simp only [hk2k, h21]
      exact ih
    | false =>
      rw [List.map_cons]
      have hhead : (if ((e1, e2) : String × α).1 == k then (k, v) else (e1, e2))
          = (e1, e2) := by simp [he]
      rw [hhead, List.lookup_cons, List.lookup_cons]
      cases hbe : (k2 == e1) with
      | true => simp only
      | false => simp only; exact ih

/-- `lookup` at a different key ignores an appended entry. -/
theorem lookup_append_ne {α : Type} (l : List (String × α)) (k k2 : String)
    (v : α) (hne : k2 ≠ k) :
    List.lookup k2 (l ++ [(k, v)]) = List.lookup k2 l := by
  have hk2k : (k2 == k) = false := by
    cases hbe : (k2 == k) with
    | false => rfl
    | true => rw [beq_iff_eq] at hbe; exact absurd hbe hne
  induction l with
  | nil => rw [List.nil_append, List.lookup_cons]; simp only [hk2k]
  | cons e rest ih =>
    obtain ⟨e1, e2⟩ := e
    rw [List.cons_append, List.lookup_cons, List.lookup_cons]
    cases hbe : (k2 == e1) with
    | true => simp only
    | false => simp only; exact ih

/-- `lookup` at a different key is unchanged by `d[k] = v`. -/
theorem lookup_setKey_ne {α : Type} (l : List (String × α)) (k k2 : String)
    (v : α) (hne : k2 ≠ k) :
    List.lookup k2 (setKey l k v) = List.lookup k2 l := by
  unfold setKey
  cases hc : containsKey l k with
  | true =>
    simp only [if_true]
    exact lookup_map_ne l k k2 v hne
  | false =>
    rw [if_neg Bool.false_ne_true]
    exact lookup_append_ne l k k2 v hne

/-- A key present after `d[k0] = v` is `k0` or was present before. -/
theorem containsKey_setKey {α : Type} (l : List (String × α)) (k0 k : String)
    (v : α) (h : containsKey (setKey l k0 v) k = true) :
    k = k0 ∨ containsKey l k = true := by
  unfold setKey at h
  cases hc : containsKey l k0 with
  | true =>
    rw [hc, if_pos rfl] at h
    rw [containsKey_iff] at h
    obtain ⟨e, he, hek⟩ := h
    rw [List.mem_map] at he
    obtain ⟨e0, he0, hfe⟩ := he
    by_cases h0 : (e0.1 == k0) = true
    · rw [if_pos h0] at hfe
      left
      rw [← hek, ← hfe]
    · rw [if_neg h0] at hfe
      right
      rw [containsKey_iff]
      exact ⟨e0, he0, by rw [hfe]; exact hek⟩
  | false =>
    rw [hc, if_neg Bool.false_ne_true] at h
    rw [containsKey_iff] at h
    obtain ⟨e, he, hek⟩ := h
    rw [List.mem_append] at he
    cases he with
    | inl hl =>
      right
      rw [containsKey_iff]
      exact ⟨e, hl, hek⟩
    | inr hr =>
      left
      simp only [List.mem_singleton] at hr
      rw [← hek, hr]

/-- C6 (amended): after `update_metadata`, when the snapshot-holding
directory exists every identifier other than `"0"` remaining in the
store is present in the current enumeration; but when the directory does
not exist, the pruning loop is skipped together with the enumeration, so
previously loaded non-`"0"` entries are retained unchanged — they are
not deleted. -/
theorem refresh_prune (env : UpdateEnv) (metadata : Store) :
    (env.snapMainOk = true →
      ∀ k, k ≠ "0" → containsKey (update_metadata env metadata) k = true →
        k ∈ env.currentSnapshots) ∧
    (env.snapMainOk = false →
      ∀ k, k ≠ "0" →
        List.lookup k (update_metadata env metadata) = List.lookup k metadata) := by
  constructor
  · intro hok k hk0 hck
    unfold update_metadata at hck
    rw [hok] at hck
    simp only [if_true] at hck
    rcases containsKey_setKey _ _ _ _ hck with h0 | hmem
    · exact absurd h0 hk0
    · rw [containsKey_iff] at hmem
      obtain ⟨e, he, hek⟩ := hmem
      rw [List.mem_filter] at he
      obtain ⟨-, hp⟩ := he
      rw [Bool.or_eq_true] at hp
      cases hp with
      | inl h1 =>
        rw [beq_iff_eq] at h1
        rw [h1] at hek
        exact absurd hek.symm hk0
      | inr h2 =>
        rw [← hek]
        simpa using h2
  · intro hok k hk0
    unfold update_metadata
    rw [hok]
    simp only [if_false]
    exact lookup_setKey_ne _ _ _ _ hk0

/-- Witness for C6's amended theorem: with the snapshot directory
present and listing `["1"]`, the surviving non-`"0"` key `"1"` is indeed
listed; with the directory absent, the leftover entry `"5"` is looked up
unchanged. -/
theorem refresh_prune_witness :
    "1" ∈ envSnapOne.currentSnapshots ∧
    List.lookup "5" (update_metadata envNoSnapDir [("5", inv5)])
      = List.lookup "5" [("5", inv5)] :=
  ⟨(refresh_prune envSnapOne []).1 rfl "1" (by decide) (by decide),
   (refresh_prune envNoSnapDir [("5", inv5)]).2 rfl "5" (by decide)⟩

/-- C6 counterexample: when the snapshot-holding directory does not
exist, the refresh does NOT delete previously loaded non-`"0"` entries:
the stale entry `"5"` survives `update_metadata` although the current
enumeration is empty — the pruning loop lives inside the
`os.path.exists(snap_main)` branch and is skipped entirely. -/
theorem refresh_prune_counterexample :
    envNoSnapDir.snapMainOk = false ∧
    envNoSnapDir.currentSnapshots = [] ∧
    List.lookup "5" (update_metadata envNoSnapDir [("5", inv5)]) = some inv5 :=
  ⟨rfl, rfl, rfl⟩

/-- C5 (amended): in audit mode with a metadata path `p` configured, the
save targets of a run are `[]` (early exit on the disk-usage test),
`[p]` (exit on the live-size test, after the refresh save), or
`[p, p ++ "_audit.json"]`.  The final save is distinctly suffixed, but
the refresh save that precedes it targets the normal path `p` even in
audit mode, so an audit run can still overwrite the store persisted at
the normal path. -/
theorem audit_save_targets (env : UpdateEnv) (p : String) (threshold : ℚ)
    (total_size used_size : ℕ) (loaded : Store) :
    mainSaveTargets env (some p) true threshold total_size used_size loaded = [] ∨
    mainSaveTargets env (some p) true threshold total_size used_size loaded = [p] ∨
    mainSaveTargets env (some p) true threshold total_size used_size loaded
      = [p, p ++ "_audit.json"] := by
  simp only [mainSaveTargets]
  by_cases h1 : (used_size : ℚ) / (total_size : ℚ) < threshold
  · rw [if_pos h1]
    exact Or.inl rfl
  · rw [if_neg h1]
    by_cases h2 : (live_size_of (update_metadata env loaded) : ℚ)
        / (total_size : ℚ) < threshold
    · rw [if_pos h2]
      exact Or.inr (Or.inl rfl)
    · rw [if_neg h2]
      exact Or.inr (Or.inr rfl)

/-- C5 counterexample: an audit run (`audit_mode = true`, metadata path
`"m"`) that passes the disk-usage test performs the refresh save to the
NORMAL path `"m"` — here the run then stops at the live-size test, so
its complete save-target list is `["m"]`, which is not the audit path. -/
theorem audit_save_counterexample :
    mainSaveTargets envNoSnapDir (some "m") true (1/2) 1 1 [] = ["m"] ∧
    ("m" : String) ≠ "m" ++ "_audit.json" := by
  constructor
  · have h1 : ¬ (((1 : ℕ) : ℚ) / ((1 : ℕ) : ℚ) < 1/2) := by norm_num
    have h2 : (live_size_of (update_metadata envNoSnapDir []) : ℚ)
        / ((1 : ℕ) : ℚ) < 1/2 := by
      have he : live_size_of (update_metadata envNoSnapDir []) = 0 := rfl
      rw [he]
      norm_num
    simp only [mainSaveTargets]
    rw [if_neg h1, if_pos h2]
  · decide

/-- Files recorded by the live walk over a forest come from the forest's
file paths. -/
theorem walkLiveList_files_sub (ex : String → Bool) (baseDev : ℕ) :
    ∀ ts : List FS,
      (∀ u ∈ ts, ∀ e ∈ (walkLive ex baseDev u).2, e.1 ∈ FS.filePaths u) →
      ∀ e ∈ (walkLiveList ex baseDev ts).2, e.1 ∈ filePathsList ts := by
  intro ts
  induction ts with
  | nil => intro _ e he; simp [walkLiveList] at he
  | cons v ts ih =>
    intro hall e he
    simp only [walkLiveList] at he
    rw [List.mem_append] at he
    simp only [filePathsList, List.mem_append]
    cases he with
    | inl h1 => exact Or.inl (hall v (by simp) e h1)
    | inr h2 => exact Or.inr (ih (fun u hu => hall u (by simp [hu])) e h2)

/-- Files recorded by the live walk come from the tree's file paths. -/
theorem walkLive_files_sub (ex : String → Bool) (baseDev : ℕ) :
    ∀ t : FS, ∀ e ∈ (walkLive ex baseDev t).2, e.1 ∈ FS.filePaths t := by
  intro t
  refine @FS.inductionOn
    (fun t => ∀ e ∈ (walkLive ex baseDev t).2, e.1 ∈ FS.filePaths t) ?_ t
  intro p st fls subs ih e he
  by_cases hdeq : st.dev = baseDev
  · have hw : (walkLive ex baseDev (FS.node p st fls subs)).2
        = fls.filter (fun e => ex e.1) ++ (walkLiveList ex baseDev subs).2 := by
      simp [walkLive, hdeq]
    rw [hw, List.mem_append] at he
    simp only [FS.filePaths, List.mem_append]
    cases he with
    | inl h1 =>
      rw [List.mem_filter] at h1
      exact Or.inl (List.mem_map_of_mem Prod.fst h1.1)
    | inr h2 => exact Or.inr (walkLiveList_files_sub ex baseDev subs ih e h2)
  · have hdv : (st.dev != baseDev) = true := by simp [bne_iff_ne, hdeq]
    simp [walkLive, hdv] at he

/-- Membership in the subtrees of a forest. -/
theorem mem_subtreesList_iff (D : FS) :
    ∀ ts : List FS, D ∈ subtreesList ts ↔ ∃ u ∈ ts, D ∈ FS.subtrees u := by
  intro ts
  induction ts with
  | nil => simp [subtreesList]
  | cons v ts ih =>
    simp only [subtreesList, List.mem_append, ih, List.mem_cons]
    constructor
    · rintro (h | ⟨u, hu, hDu⟩)
      · exact ⟨v, Or.inl rfl, h⟩
      · exact ⟨u, Or.inr hu, hDu⟩
    · rintro ⟨u, rfl | hu, hDu⟩
      · exact Or.inl hDu
      · exact Or.inr ⟨u, hu, hDu⟩

/-- A file path of a member tree is a file path of the forest. -/
theorem mem_filePathsList_of_mem (fp : String) :
    ∀ (ts : List FS) (u : FS), u ∈ ts → fp ∈ FS.filePaths u →
      fp ∈ filePathsList ts := by
  intro ts
  induction ts with
  | nil => intro u hu _; simp at hu
  | cons v ts ih =>
    intro u hu hfp
    simp only [filePathsList, List.mem_append]
    rcases List.mem_cons.mp hu with rfl | hu2
    · exact Or.inl hfp
    · exact Or.inr (ih u hu2 hfp)

/-- File paths of a subtree are file paths of the whole tree. -/
theorem subtree_filePaths_sub :
    ∀ t D : FS, D ∈ FS.subtrees t → ∀ fp ∈ FS.filePaths D, fp ∈ FS.filePaths t := by
  intro t
  refine @FS.inductionOn
    (fun t => ∀ D ∈ FS.subtrees t, ∀ fp ∈ FS.filePaths D, fp ∈ FS.filePaths t) ?_ t
  intro p st fls subs ih D hD fp hfp
  simp only [FS.subtrees, List.mem_cons] at hD
  cases hD with
  | inl heq => rw [heq] at hfp; exact hfp
  | inr hmem =>
    rw [mem_subtreesList_iff] at hmem
    obtain ⟨u, hu, hDu⟩ := hmem
    have hfpu : fp ∈ FS.filePaths u := ih u hu D hDu fp hfp
    simp only [FS.filePaths, List.mem_append]
    exact Or.inr (mem_filePathsList_of_mem fp subs u hu hfpu)

/-- No file under a foreign-device directory `D` is recorded by the live
walk over a forest, given the packaged induction hypothesis for its
members and distinct file paths. -/
theorem walkLiveList_no_bad (ex : String → Bool) (baseDev : ℕ) (D : FS)
    (hdev : D.stat.dev ≠ baseDev) :
    ∀ ts : List FS,
      (filePathsList ts).Nodup →
      (∀ u ∈ ts, (FS.filePaths u).Nodup → D ∈ FS.subtrees u →
        ∀ fp ∈ FS.filePaths D, ∀ st : Stats,
          (fp, st) ∉ (walkLive ex baseDev u).2) →
      ∀ u ∈ ts, D ∈ FS.subtrees u →
        ∀ fp ∈ FS.filePaths D, ∀ st : Stats,
          (fp, st) ∉ (walkLiveList ex baseDev ts).2 := by
  intro ts
  induction ts with
  | nil => intro _ _ u hu; simp at hu
  | cons v ts ih =>
    intro hnd hall u hu hDu fp hfp st hmem
    simp only [filePathsList] at hnd
    rw [List.nodup_append] at hnd
    obtain ⟨ndv, ndts, disj⟩ := hnd
    simp only [walkLiveList] at hmem
    rw [List.mem_append] at hmem
    rcases List.mem_cons.mp hu with rfl | hu2
    · cases hmem with
      | inl h1 => exact hall u (by simp) ndv hDu fp hfp st h1
      | inr h2 =>
        have hfpu : fp ∈ FS.filePaths u := subtree_filePaths_sub u D hDu fp hfp
        have hts : fp ∈ filePathsList ts :=
          walkLiveList_files_sub ex baseDev ts
            (fun w _ => walkLive_files_sub ex baseDev w) (fp, st) h2
        exact disj hfpu hts
    · cases hmem with
      | inl h1 =>
        have h1p : fp ∈ FS.filePaths v := walkLive_files_sub ex baseDev v (fp, st) h1
        have hfpu : fp ∈ FS.filePaths u := subtree_filePaths_sub u D hDu fp hfp
        have hts : fp ∈ filePathsList ts := mem_filePathsList_of_mem fp ts u hu2 hfpu
        exact disj h1p hts
      | inr h2 =>
        exact ih ndts (fun w hw => hall w (by simp [hw])) u hu2 hDu fp hfp st h2

/-- No file at or under a foreign-device directory `D` is recorded by
the live walk of a tree with distinct file paths that contains `D`. -/
theorem walkLive_no_bad (ex : String → Bool) (baseDev : ℕ) (D : FS)
    (hdev : D.stat.dev ≠ baseDev) :
    ∀ t : FS, (FS.filePaths t).Nodup → D ∈ FS.subtrees t →
      ∀ fp ∈ FS.filePaths D, ∀ st : Stats,
        (fp, st) ∉ (walkLive ex baseDev t).2 := by
  intro t
  refine @FS.inductionOn
    (fun t => (FS.filePaths t).Nodup → D ∈ FS.subtrees t →
      ∀ fp ∈ FS.filePaths D, ∀ st : Stats,
        (fp, st) ∉ (walkLive ex baseDev t).2) ?_ t
  intro p st0 fls subs ih hnd hD fp hfp st hmem
  by_cases hdeq : st0.dev = baseDev
  · simp only [FS.subtrees, List.mem_cons] at hD
    cases hD with
    | inl heq =>
      rw [heq] at hdev
      simp only [FS.stat] at hdev
      exact hdev hdeq
    | inr hmem2 =>
      rw [mem_subtreesList_iff] at hmem2
      obtain ⟨u, hu, hDu⟩ := hmem2
      have hw : (walkLive ex baseDev (FS.node p st0 fls subs)).2
          = fls.filter (fun e => ex e.1) ++ (walkLiveList ex baseDev subs).2 := by
        simp [walkLive, hdeq]
      rw [hw, List.mem_append] at hmem
      simp only [FS.filePaths] at hnd
      rw [List.nodup_append] at hnd
      obtain ⟨ndf, ndl, disj⟩ := hnd
      cases hmem with
      | inl h1 =>
        rw [List.mem_filter] at h1
        have hfls : fp ∈ fls.map Prod.fst := List.mem_map_of_mem Prod.fst h1.1
        have hfpu : fp ∈ FS.filePaths u := subtree_filePaths_sub u D hDu fp hfp
        have hfl : fp ∈ filePathsList subs := mem_filePathsList_of_mem fp subs u hu hfpu
        exact disj hfls hfl
      | inr h2 =>
        exact walkLiveList_no_bad ex baseDev D hdev subs ndl ih u hu hDu fp hfp st h2
  · have hdv : (st0.dev != baseDev) = true := by simp [bne_iff_ne, hdeq]
    simp [walkLive, hdv] at hmem

/-- C4: for every directory `D` of the live tree whose device id differs
from that of the cache pool root (assuming real-filesystem distinctness
of file paths), the refreshed `"0"` inventory records no file at or
under `D`; and the walk, on reaching such a directory, records only the
directory itself — no files, and no children are traversed. -/
theorem device_boundary (env : UpdateEnv) (metadata : Store) (D : FS)
    (hsub : D ∈ FS.subtrees env.liveTree)
    (hdev : D.stat.dev ≠ env.liveTree.stat.dev)
    (hnodup : (FS.filePaths env.liveTree).Nodup) :
    (∀ fp ∈ FS.filePaths D,
      containsKey (getInv (update_metadata env metadata) "0").files fp = false) ∧
    walkLive env.ex env.liveTree.stat.dev D = ([(D.path, D.stat)], []) := by
  constructor
  · intro fp hfp
    have hinv : getInv (update_metadata env metadata) "0" = scanLive env := by
      unfold update_metadata getInv
      rw [lookup_setKey_self]
      rfl
    rw [hinv]
    cases hck : containsKey (scanLive env).files fp with
    | false => rfl
    | true =>
      rw [containsKey_iff] at hck
      obtain ⟨e, he, hek⟩ := hck
      have hee : e = (fp, e.2) := by rw [← hek]
      rw [hee] at he
      exact absurd he
        (walkLive_no_bad env.ex env.liveTree.stat.dev D hdev env.liveTree
          hnodup hsub fp hfp e.2)
  · obtain ⟨p, st, fls, subs⟩ := D
    have hdev2 : st.dev ≠ env.liveTree.stat.dev := hdev
    have hdv : (st.dev != env.liveTree.stat.dev) = true := by
      simpa [bne_iff_ne] using hdev2
    show walkLive env.ex env.liveTree.stat.dev (FS.node p st fls subs)
      = ([(p, st)], [])
    simp [walkLive, hdv]

/-- Witness for C4: in `treeWithMount` the subdirectory `"c/m"` is on
device 1 while the root is on device 0; no file under it is recorded,
and the walk at it yields only the directory entry. -/
theorem device_boundary_witness :
    (∀ fp ∈ FS.filePaths (FS.node "c/m" ⟨1, 0, 0⟩ [("c/m/g", ⟨1, 1, 0⟩)] []),
      containsKey (getInv (update_metadata envWithMount []) "0").files fp = false) ∧
    walkLive envWithMount.ex envWithMount.liveTree.stat.dev
        (FS.node "c/m" ⟨1, 0, 0⟩ [("c/m/g", ⟨1, 1, 0⟩)] [])
      = ([("c/m", ⟨1, 0, 0⟩)], []) :=
  device_boundary envWithMount [] (FS.node "c/m" ⟨1, 0, 0⟩ [("c/m/g", ⟨1, 1, 0⟩)] [])
    (by simp [envWithMount, treeWithMount, FS.subtrees, subtreesList])
    (by decide)
    (by decide)
